import Mathlib

/-!
Shallow embedding of the conversation-memory and context-injection component
of the CAP_RAG_MCP repository (src/client.py, src/app.py).

Modelling conventions:
* A chat turn is a record with a `role` and a `content` string (the JSON
  dicts used by the source).
* The Redis backing store is modelled as an association list from keys to
  (value, expiry-deadline) pairs together with a `reachable` flag; the raw
  Redis operations (`GET`, `SETEX`, `DEL`) follow Redis's documented
  contract: `SETEX k ttl v` stores `v` under `k` with deadline `now + ttl`,
  `GET` returns the value while `now < deadline` and nothing afterwards,
  `DEL` removes the key.  When the store is unreachable every raw operation
  raises (returns `Except.error`), which the repository functions catch.
* JSON (de)serialisation of the stored record is modelled as the identity:
  the store holds `MemoryData` values directly.
* `json.dumps` applied to a list of strings (used for the synthesized
  system message) is modelled character-faithfully, including Python's
  default `ensure_ascii` escaping and the `", "` item separator.
* Python's `re.findall(r'i\d+', s)` is modelled by a left-to-right scan
  returning maximal non-overlapping matches; digits are ASCII `0`-`9`.
* Python's `set(...)` iteration order is unspecified; it is determinised
  here as deduplication keeping first occurrences.  Claims about the hint
  are stated so that only the underlying set of identifiers matters.
* The external agent is an oracle `List Turn → String`.
* `print` logging is a side effect with no bearing on any claim and is
  dropped.
-/

namespace CapRag

/-- One role-tagged chat message, as the dicts
`\x7b"role": ..., "content": ...\x7d` in src/client.py. -/
structure Turn where
  role : String
  content : String
deriving Repr, DecidableEq

/-- Metadata mapping; in the source an arbitrary JSON dict, only ever the
empty dict in this repository.  Modelled as an association list of string
pairs. -/
abbrev Metadata := List (String × String)

/-- The record serialised by `store_conversation_memory`
(src/client.py lines 41-46): messages, metadata, last_updated, user_id. -/
structure MemoryData where
  messages : List Turn
  metadata : Metadata
  last_updated : Nat
  user_id : String
deriving Repr, DecidableEq

/-- The empty record returned by `get_conversation_memory` when the key is
absent, expired, or the store errored: `\x7b"messages": [], "metadata": \x7b\x7d\x7d`.
The source's empty dict has no `last_updated`/`user_id` keys; they are
modelled with defaults `0` and `""`. -/
def emptyMemory : MemoryData :=
  { messages := [], metadata := [], last_updated := 0, user_id := "" }

/-- State of the Redis backing store: a reachability flag and an association
list from keys to (stored value, absolute expiry deadline). -/
structure RedisState where
  reachable : Bool
  data : List (String × MemoryData × Nat)
deriving Repr, DecidableEq

/-- Association-list lookup by key (first match wins, as an overwriting
insert keeps at most one live binding per key). -/
def lookupKey : List (String × MemoryData × Nat) → String → Option (MemoryData × Nat)
  | [], _ => none
  | (k, v) :: rest, key => if k = key then some v else lookupKey rest key

/-- Remove every binding of a key from the association list. -/
def eraseKey : List (String × MemoryData × Nat) → String → List (String × MemoryData × Nat)
  | [], _ => []
  | (k, v) :: rest, key =>
      if k = key then eraseKey rest key else (k, v) :: eraseKey rest key

/-- Raw Redis `GET` at absolute time `now`: the value is visible while
`now` is strictly before the expiry deadline.  Raises when unreachable. -/
def rawGet (s : RedisState) (key : String) (now : Nat) : Except Unit (Option MemoryData) :=
  if s.reachable then
    match lookupKey s.data key with
    | some (v, deadline) => if now < deadline then .ok (some v) else .ok none
    | none => .ok none
  else .error ()

/-- Raw Redis `SETEX key ttl value` at absolute time `now`: overwrites the
binding with expiry deadline `now + ttl`.  Raises when unreachable. -/
def rawSetex (s : RedisState) (key : String) (ttl : Nat) (v : MemoryData) (now : Nat) :
    Except Unit RedisState :=
  if s.reachable then
    .ok { s with data := (key, v, now + ttl) :: eraseKey s.data key }
  else .error ()

/-- Raw Redis `DEL key`: removes the binding.  Raises when unreachable. -/
def rawDelete (s : RedisState) (key : String) : Except Unit RedisState :=
  if s.reachable then .ok { s with data := eraseKey s.data key }
  else .error ()

/-- Conversation key namespace, `f"conversation:\x7buser_id\x7d"` in the source. -/
def convKey (user_id : String) : String := "conversation:" ++ user_id

/-- Embeds `store_conversation_memory` (src/client.py lines 38-56): builds
the record, stores it via `SETEX` with TTL 43200 seconds, and swallows any
exception (returning the store unchanged).  The source's `metadata`
parameter defaults to `None` and is normalised to the empty dict by
`metadata or \x7b\x7d`; callers here pass the metadata explicitly, `[]` when the
source omits the argument. -/
def store_conversation_memory (s : RedisState) (user_id : String) (messages : List Turn)
    (metadata : Metadata) (now : Nat) : RedisState :=
  let memory_data : MemoryData :=
    { messages := messages, metadata := metadata, last_updated := now, user_id := user_id }
  match rawSetex s (convKey user_id) 43200 memory_data now with
  | .ok s2 => s2
  | .error _ => s

/-- Embeds `get_conversation_memory` (src/client.py lines 59-68): returns
the stored record, or the empty record when the key is absent/expired or
any exception occurred. -/
def get_conversation_memory (s : RedisState) (user_id : String) (now : Nat) : MemoryData :=
  match rawGet s (convKey user_id) now with
  | .ok (some v) => v
  | .ok none => emptyMemory
  | .error _ => emptyMemory

/-- Embeds `clear_conversation_memory` (src/client.py lines 71-77): deletes
the key, swallowing any exception. -/
def clear_conversation_memory (s : RedisState) (user_id : String) : RedisState :=
  match rawDelete s (convKey user_id) with
  | .ok s2 => s2
  | .error _ => s

/-! JSON encoding of a list of strings, as Python's `json.dumps` with its
defaults (`ensure_ascii=True`, item separator `", "`). -/

/-- Lowercase hexadecimal digit for `0 ≤ n ≤ 15`. -/
def hexDigit (n : Nat) : Char :=
  if n < 10 then Char.ofNat (48 + n) else Char.ofNat (87 + n)

/-- Four-digit lowercase hexadecimal rendering, as in `\u007f`. -/
def hex4 (n : Nat) : String :=
  String.mk [hexDigit (n / 4096 % 16), hexDigit (n / 256 % 16),
             hexDigit (n / 16 % 16), hexDigit (n % 16)]

/-- Escape a single character as Python's `json.dumps` does with
`ensure_ascii=True`: short escapes for the two JSON specials and the five
control shortcuts, `\uXXXX` (with surrogate pairs above U+FFFF) for other
control and non-ASCII characters, the character itself otherwise. -/
def jsonEscapeChar (c : Char) : String :=
  if c = '"' then "\\\""
  else if c = '\\' then "\\\\"
  else if c = '\n' then "\\n"
  else if c = '\r' then "\\r"
  else if c = '\t' then "\\t"
  else if c = '\x08' then "\\b"
  else if c = '\x0c' then "\\f"
  else if c.toNat < 32 ∨ 127 ≤ c.toNat then
    if c.toNat < 65536 then "\\u" ++ hex4 c.toNat
    else
      let n := c.toNat - 65536
      "\\u" ++ hex4 (55296 + n / 1024) ++ "\\u" ++ hex4 (56320 + n % 1024)
  else String.singleton c

/-- JSON string literal for `s`. -/
def jsonQuote (s : String) : String :=
  "\"" ++ String.join (s.toList.map jsonEscapeChar) ++ "\""

/-- Join strings with a separator (Python's `sep.join`). -/
def joinSep (sep : String) : List String → String
  | [] => ""
  | [x] => x
  | x :: xs => x ++ sep ++ joinSep sep (xs)

/-- Python `json.dumps` on a list of strings with default separators. -/
def jsonDumps (xs : List String) : String :=
  "[" ++ joinSep ", " (xs.map jsonQuote) ++ "]"

/-- Python slice `l[-n:]`: the last `n` elements, or all of them when the
list is shorter. -/
def lastN (n : Nat) (l : List α) : List α := l.drop (l.length - n)

/-- Embeds the payload preparation of `process_question`
(src/client.py lines 119-125), the spec's `trim_for_agent`: with more than
one message, the last 6 messages plus one synthesized `system` message whose
content restates the contents of the last 3 of those as a JSON hint;
otherwise a single `user` message carrying the current question. -/
def trim_for_agent (messages : List Turn) (user_question : String) : List Turn :=
  if 1 < messages.length then
    let context_messages := lastN 6 messages
    context_messages ++
      [{ role := "system",
         content := "Conversation history for context: " ++
           jsonDumps ((lastN 3 context_messages).map Turn.content) }]
  else [{ role := "user", content := user_question }]

/-- Embeds `process_question` (src/client.py lines 107-137) with the agent
as an oracle from the outbound message list to the final answer text: read
the record, append the `user` turn, trim for the agent, invoke the agent,
append the `assistant` turn, persist with the source's defaulted (empty)
metadata.  Returns the answer and the updated store. -/
def process_question (agent : List Turn → String) (s : RedisState)
    (user_question : String) (user_id : String) (now : Nat) : String × RedisState :=
  let memory_data := get_conversation_memory s user_id now
  let messages := memory_data.messages ++ [{ role := "user", content := user_question }]
  let full_messages := trim_for_agent messages user_question
  let response_content := agent full_messages
  let messages2 := messages ++ [{ role := "assistant", content := response_content }]
  let s2 := store_conversation_memory s user_id messages2 [] now
  (response_content, s2)

/-- Run a sequence of questions for one user through `process_question`,
threading the store and collecting the returned answers.  All cycles run at
time `now` (each read happens immediately after the previous write, so no
record expires in between). -/
def run_questions (agent : List Turn → String) (user_id : String) (now : Nat) :
    RedisState → List String → List String × RedisState
  | s, [] => ([], s)
  | s, q :: qs =>
      let r := process_question agent s q user_id now
      let rest := run_questions agent user_id now r.2 qs
      (r.1 :: rest.1, rest.2)

/-- Interleaving of questions and answers as stored turns: one `user` turn
per question followed by the `assistant` turn with that cycle's answer. -/
def interleaveQA : List String → List String → List Turn
  | q :: qs, a :: as => { role := "user", content := q } ::
      { role := "assistant", content := a } :: interleaveQA qs as
  | _, _ => []

/-! Product-identifier extraction (`get_recent_context`,
src/client.py lines 221-248). -/

/-- Left-to-right scan for `re.findall(r'i\d+', ...)`: at each position an
`i` followed by at least one digit yields the maximal `i`-plus-digit-run
match, scanning resumes after it; otherwise the scan advances one
character.  Digits are ASCII `0`-`9`. -/
def findIds : List Char → List String
  | [] => []
  | c :: rest =>
      if c = 'i' then
        let ds := rest.takeWhile Char.isDigit
        if ds.isEmpty then findIds rest
        else String.mk ('i' :: ds) :: findIds (rest.drop ds.length)
      else findIds rest
termination_by l => l.length
decreasing_by
  all_goals (simp; try omega)

/-- Per-message extraction in `get_recent_context`: the source first guards
with `'i' in content and any(char.isdigit() for char in content)` and only
then runs `re.findall(r'i\d+', content)`. -/
def extract_product_ids (content : String) : List String :=
  if content.toList.contains 'i' ∧ content.toList.any Char.isDigit then
    findIds content.toList
  else []

/-- Deduplication keeping first occurrences: the determinisation of
Python's `set(...)` used before joining the identifiers into the hint
(Python's set iteration order is unspecified; claims depend only on the
underlying set). -/
def dedupFirst (l : List String) : List String :=
  l.foldl (fun acc x => if acc.contains x then acc else acc ++ [x]) []

/-- Fixed lead-in of the recent-context hint sentence. -/
def recentHeader : String :=
  "RECENT CONTEXT: Customer was recently asking about product(s): "

/-- Fixed tail of the recent-context hint sentence. -/
def recentTrailer : String :=
  ". When they refer to \x27that hat\x27 or similar, they likely mean one of these products."

/-- Record-level body of `get_recent_context` (src/client.py lines
228-244): with a non-empty history, scan the last 4 messages for product
IDs; a non-empty collection yields the hint sentence listing the
deduplicated IDs, anything else the empty string. -/
def recent_context_of (record : MemoryData) : String :=
  let messages := record.messages
  if messages.isEmpty then ""
  else
    let recent_products := (lastN 4 messages).flatMap fun m => extract_product_ids m.content
    if recent_products.isEmpty then ""
    else recentHeader ++ joinSep ", " (dedupFirst recent_products) ++ recentTrailer

/-- Embeds `get_recent_context` (src/client.py lines 221-248), the spec's
`build_context`: reads the record from the store and produces the hint.
The surrounding `try`/`except` can only fire inside the (already
error-swallowing) read and is absorbed by it. -/
def get_recent_context (s : RedisState) (user_id : String) (now : Nat) : String :=
  recent_context_of (get_conversation_memory s user_id now)

/-! HTTP endpoint validation (`ask_question_endpoint`, src/app.py
lines 36-82). -/

/-- Characters stripped by Python's `str.strip()` (ASCII whitespace). -/
def isPySpace (c : Char) : Bool :=
  c = ' ' ∨ c = '\t' ∨ c = '\n' ∨ c = '\r' ∨ c = '\x0b' ∨ c = '\x0c'

/-- Python `str.strip()`: remove leading and trailing whitespace. -/
def pyStrip (s : String) : String :=
  String.mk (((s.toList.dropWhile isPySpace).reverse.dropWhile isPySpace).reverse)

/-- Outcome of the `/chat/agent` endpoint's validation stage: either an
HTTP error (status, detail) or the call into the core with the validated
fields. -/
inductive EndpointResult where
  | httpError (status : Nat) (detail : String)
  | coreCall (user_id : String) (query : String)
deriving Repr, DecidableEq

/-- Embeds the validation logic of `ask_question_endpoint` (src/app.py
lines 61-68): an empty-or-falsy or whitespace-only `query` is rejected
first, then `user_id` likewise; otherwise the core (`ask_question`) is
invoked with the fields as given. -/
def ask_question_endpoint (user_id : String) (query : String) : EndpointResult :=
  if query = "" ∨ pyStrip query = "" then .httpError 400 "Query cannot be empty"
  else if user_id = "" ∨ pyStrip user_id = "" then .httpError 400 "User ID cannot be empty"
  else .coreCall user_id query

/-! Helper lemmas about the store model. -/

theorem lookupKey_eraseKey_self (d : List (String × MemoryData × Nat)) (k : String) :
    lookupKey (eraseKey d k) k = none := by
  induction d with
  | nil => rfl
  | cons e rest ih =>
    obtain ⟨k', v⟩ := e
    by_cases h : k' = k <;> simp [eraseKey, lookupKey, h, ih]

theorem eraseKey_idem (d : List (String × MemoryData × Nat)) (k : String) :
    eraseKey (eraseKey d k) k = eraseKey d k := by
  induction d with
  | nil => rfl
  | cons e rest ih =>
    obtain ⟨k', v⟩ := e
    by_cases h : k' = k <;> simp [eraseKey, h, ih]

theorem store_reachable (s : RedisState) (uid : String) (msgs : List Turn)
    (md : Metadata) (now : Nat) :
    (store_conversation_memory s uid msgs md now).reachable = s.reachable := by
  by_cases hr : s.reachable <;>
    simp [store_conversation_memory, rawSetex, hr]

theorem clear_reachable (s : RedisState) (uid : String) :
    (clear_conversation_memory s uid).reachable = s.reachable := by
  by_cases hr : s.reachable <;>
    simp [clear_conversation_memory, rawDelete, hr]

theorem get_unreachable (s : RedisState) (uid : String) (now : Nat)
    (hr : s.reachable = false) :
    get_conversation_memory s uid now = emptyMemory := by
  simp [get_conversation_memory, rawGet, hr]

theorem store_unreachable (s : RedisState) (uid : String) (msgs : List Turn)
    (md : Metadata) (now : Nat) (hr : s.reachable = false) :
    store_conversation_memory s uid msgs md now = s := by
  simp [store_conversation_memory, rawSetex, hr]

theorem clear_unreachable (s : RedisState) (uid : String) (hr : s.reachable = false) :
    clear_conversation_memory s uid = s := by
  simp [clear_conversation_memory, rawDelete, hr]

theorem get_store_self (s : RedisState) (uid : String) (msgs : List Turn)
    (md : Metadata) (now t : Nat) (hr : s.reachable = true) :
    get_conversation_memory (store_conversation_memory s uid msgs md now) uid t =
      if t < now + 43200 then
        { messages := msgs, metadata := md, last_updated := now, user_id := uid }
      else emptyMemory := by
  by_cases ht : t < now + 43200 <;>
    simp [store_conversation_memory, rawSetex, hr, get_conversation_memory, rawGet,
      lookupKey, ht]

theorem store_lookup (s : RedisState) (uid : String) (msgs : List Turn)
    (md : Metadata) (now : Nat) (hr : s.reachable = true) :
    lookupKey (store_conversation_memory s uid msgs md now).data (convKey uid) =
      some ({ messages := msgs, metadata := md, last_updated := now, user_id := uid }, now + 43200) := by
  simp [store_conversation_memory, rawSetex, hr, lookupKey]

/-- C3: for a user whose record is absent (never written, cleared) or
expired, `get_conversation_memory` returns the empty record
(`messages = []`, `metadata = []`); it is a total function, so a missing
key never produces an error. -/
theorem C3_get_absent_or_expired (s : RedisState) (uid : String) (now : Nat)
    (habs : lookupKey s.data (convKey uid) = none ∨
      ∃ v d, lookupKey s.data (convKey uid) = some (v, d) ∧ d ≤ now) :
    get_conversation_memory s uid now = emptyMemory := by
  by_cases hr : s.reachable = true
  · rcases habs with h | ⟨v, d, h, hd⟩
    · simp [get_conversation_memory, rawGet, hr, h]
    · simp [get_conversation_memory, rawGet, hr, h, Nat.not_lt.mpr hd]
  · have hr' : s.reachable = false := by simpa using hr
    exact get_unreachable s uid now hr'

/-- Witness for C3 at a fresh store and user `u`. -/
theorem C3_get_absent_or_expired_witness :
    lookupKey (RedisState.mk true []).data (convKey "u") = none ∧
    get_conversation_memory (RedisState.mk true []) "u" 5 = emptyMemory :=
  ⟨rfl, C3_get_absent_or_expired (RedisState.mk true []) "u" 5 (Or.inl rfl)⟩

/-- C4: a put stores the record under `conversation:<user_id>` with expiry
deadline exactly `now + 43200`; a read strictly before the deadline returns
the record unchanged, a read at or after the deadline returns the empty
record, and a second put resets the deadline to that write's own
`now2 + 43200`. -/
theorem C4_put_ttl (s : RedisState) (uid : String) (msgs msgs2 : List Turn)
    (md md2 : Metadata) (now t1 t2 now2 : Nat) (hr : s.reachable = true)
    (ht1 : t1 < now + 43200) (ht2 : now + 43200 ≤ t2) :
    lookupKey (store_conversation_memory s uid msgs md now).data (convKey uid) =
      some ({ messages := msgs, metadata := md, last_updated := now, user_id := uid },
        now + 43200) ∧
    get_conversation_memory (store_conversation_memory s uid msgs md now) uid t1 =
      { messages := msgs, metadata := md, last_updated := now, user_id := uid } ∧
    get_conversation_memory (store_conversation_memory s uid msgs md now) uid t2 =
      emptyMemory ∧
    lookupKey (store_conversation_memory (store_conversation_memory s uid msgs md now)
        uid msgs2 md2 now2).data (convKey uid) =
      some ({ messages := msgs2, metadata := md2, last_updated := now2, user_id := uid },
        now2 + 43200) := by
  refine ⟨store_lookup s uid msgs md now hr, ?_, ?_, ?_⟩
  · rw [get_store_self s uid msgs md now t1 hr, if_pos ht1]
  · rw [get_store_self s uid msgs md now t2 hr, if_neg (Nat.not_lt.mpr ht2)]
  · exact store_lookup _ uid msgs2 md2 now2 (by rw [store_reachable]; exact hr)

/-- Witness for C4: a write at time 0 read back just before and at the
12-hour deadline. -/
theorem C4_put_ttl_witness :
    43199 < 0 + 43200 ∧ 0 + 43200 ≤ 43200 ∧
    get_conversation_memory (store_conversation_memory (RedisState.mk true []) "u"
        [Turn.mk "user" "q"] [] 0) "u" 43199 =
      { messages := [Turn.mk "user" "q"], metadata := [], last_updated := 0, user_id := "u" } ∧
    get_conversation_memory (store_conversation_memory (RedisState.mk true []) "u"
        [Turn.mk "user" "q"] [] 0) "u" 43200 = emptyMemory :=
  ⟨by decide, by decide,
    (C4_put_ttl (RedisState.mk true []) "u" [Turn.mk "user" "q"] [] [] [] 0 43199 43200 7
      rfl (by decide) (by decide)).2.1,
    (C4_put_ttl (RedisState.mk true []) "u" [Turn.mk "user" "q"] [] [] [] 0 43199 43200 7
      rfl (by decide) (by decide)).2.2.1⟩

/-- C7: with the backing store unreachable, `get_conversation_memory`
degrades to the empty record, `store_conversation_memory` and
`clear_conversation_memory` swallow the failure leaving the state
unchanged, and `process_question` still completes, returning the agent's
answer for the lone question message. -/
theorem C7_outage (agent : List Turn → String) (s : RedisState) (uid q : String)
    (msgs : List Turn) (md : Metadata) (now : Nat) (hr : s.reachable = false) :
    get_conversation_memory s uid now = emptyMemory ∧
    store_conversation_memory s uid msgs md now = s ∧
    clear_conversation_memory s uid = s ∧
    process_question agent s q uid now = (agent [Turn.mk "user" q], s) := by
  refine ⟨get_unreachable s uid now hr, store_unreachable s uid msgs md now hr,
    clear_unreachable s uid hr, ?_⟩
  have hget := get_unreachable s uid now hr
  simp only [process_question, hget, emptyMemory, List.nil_append, trim_for_agent,
    List.length_cons, List.length_nil]
  norm_num
  exact store_unreachable s uid _ _ now hr

/-- Witness for C7 at an unreachable store holding stale data. -/
theorem C7_outage_witness :
    get_conversation_memory
        (RedisState.mk false [(convKey "u", emptyMemory, 99)]) "u" 3 = emptyMemory ∧
    process_question (fun _ => "ANS") (RedisState.mk false [(convKey "u", emptyMemory, 99)])
        "hello" "u" 3 =
      ("ANS", RedisState.mk false [(convKey "u", emptyMemory, 99)]) :=
  ⟨(C7_outage (fun _ => "ANS") (RedisState.mk false [(convKey "u", emptyMemory, 99)])
      "u" "hello" [] [] 3 rfl).1,
    (C7_outage (fun _ => "ANS") (RedisState.mk false [(convKey "u", emptyMemory, 99)])
      "u" "hello" [] [] 3 rfl).2.2.2⟩

/-- C8: `clear_conversation_memory` is idempotent (clearing an absent user
is a no-op, not an error) and a clear followed by a get returns the empty
record, whatever the prior history and TTL state. -/
theorem C8_clear_idempotent (s : RedisState) (uid : String) (t : Nat) :
    clear_conversation_memory (clear_conversation_memory s uid) uid =
      clear_conversation_memory s uid ∧
    get_conversation_memory (clear_conversation_memory s uid) uid t = emptyMemory := by
  by_cases hr : s.reachable = true
  · constructor
    · simp [clear_conversation_memory, rawDelete, hr, eraseKey_idem]
    · simp [clear_conversation_memory, rawDelete, hr, get_conversation_memory, rawGet,
        lookupKey_eraseKey_self]
  · have hr' : s.reachable = false := by simpa using hr
    rw [clear_unreachable s uid hr']
    exact ⟨clear_unreachable s uid hr', get_unreachable s uid t hr'⟩

/-- Unfolding of `process_question`: the answer is the agent's output on
the trimmed payload, and the store receives the read messages extended by
the new `user` and `assistant` turns, with empty metadata. -/
theorem process_question_eq (agent : List Turn → String) (s : RedisState)
    (q uid : String) (now : Nat) :
    process_question agent s q uid now =
      (agent (trim_for_agent ((get_conversation_memory s uid now).messages ++
          [Turn.mk "user" q]) q),
       store_conversation_memory s uid
         ((get_conversation_memory s uid now).messages ++
           [Turn.mk "user" q, Turn.mk "assistant"
             (agent (trim_for_agent ((get_conversation_memory s uid now).messages ++
               [Turn.mk "user" q]) q))]) [] now) := by
  simp [process_question]

/-- One question/answer cycle on a reachable store appends exactly the new
`user` turn and the new `assistant` turn to the stored messages, and keeps
the store reachable. -/
theorem get_process (agent : List Turn → String) (s : RedisState) (q uid : String)
    (now : Nat) (hr : s.reachable = true) :
    (get_conversation_memory (process_question agent s q uid now).2 uid now).messages =
      (get_conversation_memory s uid now).messages ++
        [Turn.mk "user" q, Turn.mk "assistant" (process_question agent s q uid now).1] ∧
    (process_question agent s q uid now).2.reachable = true := by
  rw [process_question_eq]
  constructor
  · rw [get_store_self _ _ _ _ _ _ hr, if_pos (by omega)]
  · rw [store_reachable]; exact hr

/-- Running a question list threads the cycles: the store stays reachable,
one answer is collected per question, and the stored messages grow by the
interleaving of the questions with the collected answers, in call order. -/
theorem run_questions_spec (agent : List Turn → String) (uid : String) (now : Nat)
    (qs : List String) :
    ∀ s : RedisState, s.reachable = true →
      (run_questions agent uid now s qs).2.reachable = true ∧
      (run_questions agent uid now s qs).1.length = qs.length ∧
      (get_conversation_memory (run_questions agent uid now s qs).2 uid now).messages =
        (get_conversation_memory s uid now).messages ++
          interleaveQA qs (run_questions agent uid now s qs).1 := by
  induction qs with
  | nil => intro s hr; simp [run_questions, interleaveQA, hr]
  | cons q qs ih =>
    intro s hr
    have hstep := get_process agent s q uid now hr
    obtain ⟨ir, ilen, imsg⟩ := ih (process_question agent s q uid now).2 hstep.2
    refine ⟨by simpa [run_questions] using ir, by simpa [run_questions] using ilen, ?_⟩
    simp only [run_questions]
    rw [imsg, hstep.1]
    simp [interleaveQA]

/-- Length of an interleaving of equally long question and answer lists. -/
theorem interleaveQA_length : ∀ (qs as : List String), qs.length = as.length →
    (interleaveQA qs as).length = 2 * qs.length
  | [], [], _ => rfl
  | [], _ :: _, h => by simp at h
  | _ :: _, [], h => by simp at h
  | _ :: qs, _ :: as, h => by
    have := interleaveQA_length qs as (by simpa using h)
    simp [interleaveQA, this]; ring

/-- C6: running any sequence of questions for one user on a fresh store,
with every read immediately following the previous write (no expiry) and no
concurrent writer, collects one answer per question and leaves a stored
message list that is exactly the interleaving, in call order, of one
`user` turn per question with the `assistant` turn carrying that cycle's
answer — hence of length twice the number of questions. -/
theorem C6_sequential_cycles (agent : List Turn → String) (uid : String) (now : Nat)
    (qs : List String) :
    (run_questions agent uid now (RedisState.mk true []) qs).1.length = qs.length ∧
    (get_conversation_memory (run_questions agent uid now (RedisState.mk true []) qs).2
        uid now).messages =
      interleaveQA qs (run_questions agent uid now (RedisState.mk true []) qs).1 ∧
    (get_conversation_memory (run_questions agent uid now (RedisState.mk true []) qs).2
        uid now).messages.length = 2 * qs.length := by
  obtain ⟨hr, hlen, hmsg⟩ := run_questions_spec agent uid now qs (RedisState.mk true []) rfl
  have h0 : (get_conversation_memory (RedisState.mk true []) uid now).messages = [] := by
    simp [get_conversation_memory, rawGet, lookupKey, emptyMemory]
  rw [h0, List.nil_append] at hmsg
  exact ⟨hlen, hmsg, by rw [hmsg, interleaveQA_length qs _ hlen.symm]⟩

/-- C10: if every turn read from the store has role `user` or `assistant`,
then so does every turn of the record `process_question` persists — read
back at any later time — and in particular the synthesized `system`
context message of the outbound payload is never among them. -/
theorem C10_roles_invariant (agent : List Turn → String) (s : RedisState)
    (q uid : String) (now t : Nat)
    (h : ∀ m ∈ (get_conversation_memory s uid now).messages,
      m.role = "user" ∨ m.role = "assistant") :
    (∀ m ∈ (get_conversation_memory (process_question agent s q uid now).2 uid t).messages,
      m.role = "user" ∨ m.role = "assistant") ∧
    (∀ m ∈ (get_conversation_memory (process_question agent s q uid now).2 uid t).messages,
      m.role ≠ "system") := by
  have main : ∀ m ∈ (get_conversation_memory (process_question agent s q uid now).2
      uid t).messages, m.role = "user" ∨ m.role = "assistant" := by
    by_cases hr : s.reachable = true
    · rw [process_question_eq, get_store_self _ _ _ _ _ _ hr]
      by_cases ht : t < now + 43200
      · rw [if_pos ht]
        intro m hm
        rcases List.mem_append.mp hm with hold | hnew
        · exact h m hold
        · rcases List.mem_cons.mp hnew with h1 | h1
          · exact Or.inl (by rw [h1])
          · rcases List.mem_cons.mp h1 with h2 | h2
            · exact Or.inr (by rw [h2])
            · cases h2
      · rw [if_neg ht]; intro m hm; simp [emptyMemory] at hm
    · have hr' : s.reachable = false := by simpa using hr
      rw [process_question_eq]
      rw [store_unreachable s uid _ _ now hr']
      rw [get_unreachable s uid t hr']
      intro m hm; simp [emptyMemory] at hm
  refine ⟨main, fun m hm => ?_⟩
  rcases main m hm with h1 | h1 <;> rw [h1] <;> decide

/-- Witness for C10 after one cycle on a fresh store. -/
theorem C10_roles_invariant_witness :
    (get_conversation_memory (process_question (fun _ => "ANS")
        (RedisState.mk true []) "hi" "u" 0).2 "u" 0).messages.all
      (fun m => decide (m.role ≠ "system")) = true := by
  have h := (C10_roles_invariant (fun _ => "ANS") (RedisState.mk true []) "hi" "u" 0 0
    (by intro m hm; simp [get_conversation_memory, rawGet, lookupKey, emptyMemory] at hm)).2
  exact List.all_eq_true.mpr fun m hm => by simpa using h m hm

/-- C5 counterexample: reading a record whose metadata is the non-empty
dict `[("k", "v")]` and running one question/answer cycle writes a record
whose metadata is empty — not the metadata that was read. -/
theorem C5_metadata_counterexample :
    (get_conversation_memory (RedisState.mk true
        [(convKey "u", MemoryData.mk [] [("k", "v")] 0 "u", 100)]) "u" 1).metadata =
      [("k", "v")] ∧
    (get_conversation_memory (process_question (fun _ => "A")
        (RedisState.mk true [(convKey "u", MemoryData.mk [] [("k", "v")] 0 "u", 100)])
        "q" "u" 1).2 "u" 1).metadata = [] := by
  exact ⟨rfl, rfl⟩

/-- C5 amended: the record written by `process_question` always carries
empty metadata (the source calls `store_conversation_memory` without its
metadata argument, which defaults to the empty dict); only the message list
differs from the record read, extended by the new `user` and `assistant`
turns; the written metadata equals the metadata that was read exactly when
the latter was already empty — which holds for every record this system
itself writes. -/
theorem C5_metadata_amended (agent : List Turn → String) (s : RedisState)
    (q uid : String) (now : Nat) (hr : s.reachable = true) :
    (get_conversation_memory (process_question agent s q uid now).2 uid now).metadata = [] ∧
    (get_conversation_memory (process_question agent s q uid now).2 uid now).messages =
      (get_conversation_memory s uid now).messages ++
        [Turn.mk "user" q,
         Turn.mk "assistant" (process_question agent s q uid now).1] ∧
    ((get_conversation_memory s uid now).metadata = [] →
      (get_conversation_memory (process_question agent s q uid now).2 uid now).metadata =
        (get_conversation_memory s uid now).metadata) := by
  have hmsg := (get_process agent s q uid now hr).1
  have hmd : (get_conversation_memory (process_question agent s q uid now).2
      uid now).metadata = [] := by
    rw [process_question_eq, get_store_self _ _ _ _ _ _ hr, if_pos (by omega)]
  exact ⟨hmd, hmsg, fun h => by rw [hmd, h]⟩

/-- Witness for C5 amended after one cycle on a fresh store. -/
theorem C5_metadata_amended_witness :
    (get_conversation_memory (process_question (fun _ => "A")
        (RedisState.mk true []) "q" "u" 0).2 "u" 0).metadata = [] :=
  (C5_metadata_amended (fun _ => "A") (RedisState.mk true []) "q" "u" 0 rfl).1

/-- The last-`n` slice has `min (length) n` elements. -/
theorem lastN_length (n : Nat) (l : List α) : (lastN n l).length = min l.length n := by
  simp only [lastN, List.length_drop]; omega

/-- Appending in front of an exactly-`n`-element suffix does not change the
last-`n` slice. -/
theorem lastN_append (n : Nat) (pre l : List α) (h : l.length = n) :
    lastN n (pre ++ l) = l := by
  unfold lastN
  rw [List.length_append, h, Nat.add_sub_cancel, List.drop_left]

/-- A list no longer than `n` is its own last-`n` slice. -/
theorem lastN_of_le (n : Nat) (l : List α) (h : l.length ≤ n) : lastN n l = l := by
  unfold lastN
  rw [Nat.sub_eq_zero_of_le h, List.drop_zero]

/-- C1 counterexample: a three-message history (one prior exchange plus the
current question) has at least 2 messages, yet the outbound payload has 4
entries, not the 7 the claim states for every history of length at least 2. -/
theorem C1_trim_counterexample :
    2 ≤ ([Turn.mk "user" "q1", Turn.mk "assistant" "a1",
      Turn.mk "user" "q2"] : List Turn).length ∧
    (trim_for_agent [Turn.mk "user" "q1", Turn.mk "assistant" "a1",
      Turn.mk "user" "q2"] "q2").length ≠ 7 := by
  constructor
  · decide
  · have : (trim_for_agent [Turn.mk "user" "q1", Turn.mk "assistant" "a1",
      Turn.mk "user" "q2"] "q2").length = 4 := rfl
    omega

/-- C1 amended: a singleton history (just the current question) passes
through unchanged with no synthesized message; a history of at least 2
messages yields the last `min(length, 6)` messages followed by exactly one
synthesized `system` message whose content is the fixed prefix plus the
JSON encoding of the contents of the last (up to) 3 of those — so
`min(length, 6) + 1` entries in total, which is 7 exactly when the history
has at least 6 messages. -/
theorem C1_trim_for_agent (msgs : List Turn) (q : String) (h2 : 2 ≤ msgs.length) :
    trim_for_agent [Turn.mk "user" q] q = [Turn.mk "user" q] ∧
    trim_for_agent msgs q =
      lastN 6 msgs ++ [Turn.mk "system"
        ("Conversation history for context: " ++
          jsonDumps ((lastN 3 (lastN 6 msgs)).map Turn.content))] ∧
    (trim_for_agent msgs q).length = min msgs.length 6 + 1 ∧
    (6 ≤ msgs.length → (trim_for_agent msgs q).length = 7) := by
  have hbranch : trim_for_agent msgs q =
      lastN 6 msgs ++ [Turn.mk "system"
        ("Conversation history for context: " ++
          jsonDumps ((lastN 3 (lastN 6 msgs)).map Turn.content))] := by
    unfold trim_for_agent
    rw [if_pos (by omega)]
  have hlen : (trim_for_agent msgs q).length = min msgs.length 6 + 1 := by
    rw [hbranch, List.length_append, lastN_length]
    rfl
  refine ⟨by unfold trim_for_agent; simp, hbranch, hlen, fun h6 => ?_⟩
  rw [hlen]
  omega

/-- Witness for C1 amended at a two-message history. -/
theorem C1_trim_for_agent_witness :
    2 ≤ ([Turn.mk "user" "q1", Turn.mk "user" "q2"] : List Turn).length ∧
    (trim_for_agent [Turn.mk "user" "q1", Turn.mk "user" "q2"] "q2").length =
      min ([Turn.mk "user" "q1", Turn.mk "user" "q2"] : List Turn).length 6 + 1 :=
  ⟨by decide,
    (C1_trim_for_agent [Turn.mk "user" "q1", Turn.mk "user" "q2"] "q2" (by decide)).2.2.1⟩

/-- Membership in `dedupFirst` coincides with membership in the list. -/
theorem mem_dedupFirst (l : List String) (x : String) :
    x ∈ dedupFirst l ↔ x ∈ l := by
  have aux : ∀ (l acc : List String),
      (x ∈ l.foldl (fun acc y => if acc.contains y then acc else acc ++ [y]) acc ↔
        x ∈ acc ∨ x ∈ l) := by
    intro l
    induction l with
    | nil => intro acc; simp
    | cons y l ih =>
      intro acc
      rw [List.foldl_cons, ih]
      by_cases hc : acc.contains y = true
      · rw [if_pos hc]
        have hy : y ∈ acc := List.elem_iff.mp hc
        constructor
        · rintro (h | h)
          · exact Or.inl h
          · exact Or.inr (List.mem_cons_of_mem y h)
        · rintro (h | h)
          · exact Or.inl h
          · rcases List.mem_cons.mp h with h1 | h1
            · exact Or.inl (h1 ▸ hy)
            · exact Or.inr h1
      · rw [if_neg hc]
        constructor
        · rintro (h | h)
          · rcases List.mem_append.mp h with h1 | h1
            · exact Or.inl h1
            · rcases List.mem_singleton.mp h1 with h2
              exact Or.inr (h2 ▸ List.mem_cons_self y l)
          · exact Or.inr (List.mem_cons_of_mem y h)
        · rintro (h | h)
          · exact Or.inl (List.mem_append.mpr (Or.inl h))
          · rcases List.mem_cons.mp h with h1 | h1
            · exact Or.inl (List.mem_append.mpr (Or.inr (List.mem_singleton.mpr h1)))
            · exact Or.inr h1
  rw [dedupFirst, aux l []]
  simp

/-- C2: the hint inspects only the last 4 turns — older turns prepended in
front of a 4-turn window never change it; the hint is empty exactly when
the scan of the (up to) last 4 turns finds no product identifier, and
otherwise it is the fixed sentence listing exactly the identifiers found
there (deduplicated, membership unchanged). -/
theorem C2_recent_context (pre msgs other : List Turn) (md : Metadata)
    (lu : Nat) (u1 : String) (h4 : msgs.length = 4) :
    recent_context_of (MemoryData.mk (pre ++ msgs) md lu u1) =
      recent_context_of (MemoryData.mk msgs md lu u1) ∧
    (((lastN 4 other).flatMap fun m => extract_product_ids m.content) = [] →
      recent_context_of (MemoryData.mk other md lu u1) = "") ∧
    (((lastN 4 other).flatMap fun m => extract_product_ids m.content) ≠ [] →
      recent_context_of (MemoryData.mk other md lu u1) =
        recentHeader ++ joinSep ", "
          (dedupFirst ((lastN 4 other).flatMap fun m => extract_product_ids m.content)) ++
          recentTrailer ∧
      ∀ x, x ∈ dedupFirst ((lastN 4 other).flatMap fun m => extract_product_ids m.content) ↔
        x ∈ (lastN 4 other).flatMap fun m => extract_product_ids m.content) := by
  have hne : msgs ≠ [] := by
    intro h; rw [h] at h4; simp at h4
  refine ⟨?_, ?_, ?_⟩
  · have e1 : lastN 4 (pre ++ msgs) = msgs := lastN_append 4 pre msgs h4
    have e2 : lastN 4 msgs = msgs := lastN_of_le 4 msgs (by omega)
    have hne2 : pre ++ msgs ≠ [] := by
      intro h; rcases List.append_eq_nil.mp h with ⟨_, h2⟩; exact hne h2
    simp only [recent_context_of, e1, e2, List.isEmpty_eq_false.mpr hne,
      List.isEmpty_eq_false.mpr hne2, Bool.false_eq_true, if_false]
  · intro hids
    by_cases ho : other = []
    · simp [recent_context_of, ho]
    · simp only [recent_context_of]
      rw [if_neg (by simpa [List.isEmpty_iff] using ho)]
      simp only [hids]
      rfl
  · intro hids
    have ho : other ≠ [] := by
      intro h; apply hids; rw [h]; rfl
    constructor
    · simp only [recent_context_of]
      rw [if_neg (by simpa [List.isEmpty_iff] using ho)]
      rw [if_neg (by simpa [List.isEmpty_iff] using hids)]
    · intro x; exact mem_dedupFirst _ x

/-- Witness for C2 at a history with identifiers in and before the 4-turn
window. -/
theorem C2_recent_context_witness :
    ([Turn.mk "user" "i7041 please", Turn.mk "assistant" "sure",
      Turn.mk "user" "and i8501", Turn.mk "assistant" "ok"] : List Turn).length = 4 ∧
    recent_context_of (MemoryData.mk
        ([Turn.mk "user" "about i9999", Turn.mk "assistant" "noted"] ++
         [Turn.mk "user" "i7041 please", Turn.mk "assistant" "sure",
          Turn.mk "user" "and i8501", Turn.mk "assistant" "ok"]) [] 0 "u") =
      recent_context_of (MemoryData.mk
        [Turn.mk "user" "i7041 please", Turn.mk "assistant" "sure",
         Turn.mk "user" "and i8501", Turn.mk "assistant" "ok"] [] 0 "u") :=
  ⟨by decide,
    (C2_recent_context
      [Turn.mk "user" "about i9999", Turn.mk "assistant" "noted"]
      [Turn.mk "user" "i7041 please", Turn.mk "assistant" "sure",
       Turn.mk "user" "and i8501", Turn.mk "assistant" "ok"]
      [] [] 0 "u" (by decide)).1⟩

/-- Whitespace-only strings strip to the empty string. -/
theorem pyStrip_all_space (s : String) (h : s.toList.all isPySpace = true) :
    pyStrip s = "" := by
  unfold pyStrip
  have h1 : s.toList.dropWhile isPySpace = [] :=
    List.dropWhile_eq_nil_iff.mpr (by simpa [List.all_eq_true] using h)
  rw [h1]
  rfl

/-- C9: a whitespace-only (or empty) `query` is rejected with status 400 and
the same "Query cannot be empty" detail an empty query gets; with a
non-blank query, a whitespace-only (or empty) `user_id` is rejected with
status 400 and the same "User ID cannot be empty" detail an empty user_id
gets; in the first case the core call is never produced. -/
theorem C9_whitespace_validation (uid q : String) :
    (q.toList.all isPySpace = true →
      ask_question_endpoint uid q = .httpError 400 "Query cannot be empty" ∧
      ask_question_endpoint uid q = ask_question_endpoint uid "") ∧
    (uid.toList.all isPySpace = true → pyStrip q ≠ "" →
      ask_question_endpoint uid q = .httpError 400 "User ID cannot be empty" ∧
      ask_question_endpoint uid q = ask_question_endpoint "" q) ∧
    (∀ u2 q2, q.toList.all isPySpace = true →
      ask_question_endpoint uid q ≠ .coreCall u2 q2) := by
  refine ⟨?_, ?_, ?_⟩
  · intro hq
    have hstrip : pyStrip q = "" := pyStrip_all_space q hq
    have h1 : ask_question_endpoint uid q = .httpError 400 "Query cannot be empty" := by
      simp [ask_question_endpoint, hstrip]
    exact ⟨h1, by rw [h1]; simp [ask_question_endpoint]⟩
  · intro hu hqv
    have hq0 : q ≠ "" := by
      intro h; apply hqv; rw [h]; rfl
    have hustrip : pyStrip uid = "" := pyStrip_all_space uid hu
    constructor
    · simp [ask_question_endpoint, hq0, hqv, hustrip]
    · simp [ask_question_endpoint, hq0, hqv, hustrip]
  · intro u2 q2 hq
    simp [ask_question_endpoint, pyStrip_all_space q hq]

/-- Witness for C9 at a whitespace-only query. -/
theorem C9_whitespace_validation_witness :
    ask_question_endpoint "user1" " \t " = .httpError 400 "Query cannot be empty" :=
  ((C9_whitespace_validation "user1" " \t ").1 (by decide)).1

end CapRag
